import Mathlib

/-!
Verification development for the courtlistener management commands.

The definitions below are a shallow embedding of three pieces of the
repository:

* `cl/corpus_importer/management/commands/make_aws_manifest_files.py` —
  the checkpointed manifest-export driver (`Command.handle`,
  `get_custom_query`, `get_total_number_of_records`), modelled as a pure
  function from an abstract database (the list of primary keys matching
  the record-type filter), the invocation options, the initial checkpoint
  contents and a fuel bound, to the trace of observable events (queries,
  uploads, checkpoint writes and the final delete).
* `cl/corpus_importer/management/commands/update_opinions_order.py` —
  the n-gram generator `generate_ngrams` and the `match_text` ordering
  heuristic, modelled from the tokenized word lists onward (HTML parsing
  and regexes are external library calls).
* `cl/lib/middleware.py` — `MaintenanceModeMiddleware`.

Machine strings are modelled as Lean `String`s built by concatenation,
Python byte/str truthiness is made explicit where the source relies on it,
and Python `str.find` (which returns -1 on failure) is modelled with `Int`.
-/

namespace CourtListener

/-! ### itertools.batched

`batched(iterable, n)` yields successive chunks of `n` elements; the last
chunk may be shorter.  Python raises `ValueError` for `n < 1`; that case is
modelled as the empty output and excluded by hypotheses in the theorems.
The recursion is driven by a fuel argument equal to the list length so that
the definition is structural and evaluates inside the kernel. -/

def batchedGo {α : Type} (n : Nat) : Nat → List α → List (List α)
  | _, [] => []
  | 0, _ :: _ => []
  | fuel + 1, x :: xs => ((x :: xs).take n) :: batchedGo n fuel ((x :: xs).drop n)

def batched {α : Type} (n : Nat) (l : List α) : List (List α) :=
  if n = 0 then [] else batchedGo n l.length l

/-! ### Manifest rows

One outer query batch is partitioned into sub-batches by `batched`; each
sub-batch becomes one CSV row `(bucket, file_name)`, where `file_name` is
`f"{row[0][0]}_{row[-1][0]}"` when the group has more than one element and
`f"{row[0][0]}"` otherwise (`make_aws_manifest_files.py`, lines 214-223). -/

def groupFileName : List Nat → String
  | [] => ""
  | x :: xs =>
    match xs.getLast? with
    | none => toString x
    | some y => toString x ++ "_" ++ toString y

/-- The identifiers serialized into a group's `file_name` field: the first
element, and additionally the last element when the group has more than one
element.  This mirrors the `match` structure of `groupFileName`. -/
def groupBoundaryIds : List Nat → List Nat
  | [] => []
  | x :: xs =>
    match xs.getLast? with
    | none => [x]
    | some y => [x, y]

def manifestRows (bucket : String) (m : Nat) (rows : List Nat) :
    List (String × String) :=
  (batched m rows).map (fun g => (bucket, groupFileName g))

/-- All identifiers written into the `file_name` fields of a manifest. -/
def manifestIds (m : Nat) (rows : List Nat) : List Nat :=
  ((batched m rows).map groupBoundaryIds).flatten

/-! ### CSV serialization

`csv.writer` defaults: delimiter `,`, line terminator `\r\n`,
`QUOTE_MINIMAL` (a field is quoted only when it contains the delimiter, the
quote character, or a line-terminator character; quote characters are
doubled).  `DictWriter.writeheader` is never called by the source, so the
body consists of data rows only. -/

def csvNeedsQuote (s : String) : Bool :=
  s.data.any (fun c => c == ',' || c == '"' || c == '\r' || c == '\n')

/-- Doubles every quote character, as Python's `escapechar`-less writer
does via `field.replace(quotechar, quotechar * 2)`. -/
def csvEscapeQuotes (s : String) : String :=
  String.mk (s.data.foldr
    (fun c acc => if c = '"' then '"' :: '"' :: acc else c :: acc) [])

def csvField (s : String) : String :=
  if csvNeedsQuote s then "\"" ++ csvEscapeQuotes s ++ "\"" else s

def csvRowText (bucket fileName : String) : String :=
  csvField bucket ++ "," ++ csvField fileName ++ "\r\n"

def csvBody (rows : List (String × String)) : String :=
  String.join (rows.map (fun r => csvRowText r.1 r.2))

/-! ### The checkpoint and the driver state

The redis hash `{record_type}_import_status` holds the four checkpoint
fields; `hget` of an absent field returns nil, modelled by `none`.
`r.delete` removes the whole hash, after which every `hget` returns nil. -/

structure Checkpoint where
  last_pk : Option Nat
  total_records : Option Nat
  next_iteration_counter : Option Nat
  records_processed : Option Nat
deriving DecidableEq, Repr

def Checkpoint.deleted : Checkpoint := ⟨none, none, none, none⟩

structure S3Object where
  key : String
  bucket : String
  body : String
deriving DecidableEq, Repr

structure Opts where
  record_type : String
  bucket_name : String
  query_batch_size : Nat
  lambda_record_size : Nat
deriving DecidableEq, Repr

/-- Python truthiness of the `last_pk` value as tested by
`if not last_pk` in `get_custom_query`: `None` and the integer `0` are
falsy.  (On the very first loop iteration the value read from redis is a
string, for which only `None` and `""` are falsy; the two conventions agree
on every value the driver itself stores, because stored values are fetched
primary keys, which are positive in the source database.) -/
def pkGiven : Option Nat → Bool
  | none => false
  | some pk => pk != 0

/-- The row set produced by the SQL query of `get_custom_query`: the ids of
the record type's filtered table (the abstract `db`), restricted to
`id > last_pk` when `last_pk` is truthy.  The type-specific `WHERE` filters
are part of the abstraction: `db` is the list of ids satisfying them. -/
def get_custom_query_rows (db : List Nat) (last_pk : Option Nat) : List Nat :=
  if pkGiven last_pk then db.filter (fun id => last_pk.getD 0 < id) else db

/-- One page fetch: `WHERE ... ORDER BY id LIMIT query_batch_size`
followed by `cursor.fetchall()`. -/
def fetchPage (db : List Nat) (last_pk : Option Nat) (limit : Nat) : List Nat :=
  (List.insertionSort (· ≤ ·) (get_custom_query_rows db last_pk)).take limit

/-- Observable events of one driver run, in program order.  A `batch` event
packages one loop iteration: the page returned by the query, the object
uploaded with `put_object`, and the checkpoint contents immediately after
the `hset` that commits the iteration. -/
inductive Ev where
  | countQuery (result : Nat)
  | setTotal (n : Nat)
  | batch (rows : List Nat) (obj : S3Object) (after : Checkpoint)
  | emptyFetch
  | del
deriving DecidableEq, Repr

/-- The object uploaded for one batch: key
`f"{record_type}_filelist_{counter}.csv"`, the operator-supplied bucket,
and the CSV rows of the batch as body (lines 207-229). -/
def mkManifestObject (opts : Opts) (counter : Nat) (rows : List Nat) : S3Object :=
  { key := opts.record_type ++ "_filelist_" ++ toString counter ++ ".csv"
    bucket := opts.bucket_name
    body := csvBody (manifestRows opts.bucket_name opts.lambda_record_size rows) }

/-- The `hset` mapping committed after a batch (lines 231-246): the new
`last_pk` is `rows[-1][0]`, the counter has been incremented, and
`records_processed` grows by the page's row count.  `total_records` is not
part of the mapping and is left untouched. -/
def commitCheckpoint (redis : Checkpoint) (lp counter count : Nat) : Checkpoint :=
  { redis with
    last_pk := some lp
    next_iteration_counter := some (counter + 1)
    records_processed := some (redis.records_processed.getD 0 + count) }

/-- The `while True` loop of `Command.handle` (lines 189-259).  `fuel`
bounds the number of iterations; running out of fuel models a crash or an
unhandled error aborting the process mid-run (third component `false`),
leaving the checkpoint at its last committed state.  A normal exit (zero
rows fetched) breaks out of the loop and deletes the checkpoint. -/
def handleLoop (db : List Nat) (opts : Opts) :
    Nat → Option Nat → Nat → Checkpoint → List Ev × Checkpoint × Bool
  | 0, _, _, redis => ([], redis, false)
  | fuel + 1, last_pk, counter, redis =>
    let rows := fetchPage db last_pk opts.query_batch_size
    match rows.getLast? with
    | none => ([Ev.emptyFetch, Ev.del], Checkpoint.deleted, true)
    | some lp =>
      let redis' := commitCheckpoint redis lp counter rows.length
      let rest := handleLoop db opts fuel (some lp) (counter + 1) redis'
      (Ev.batch rows (mkManifestObject opts counter rows) redis' :: rest.1,
        rest.2.1, rest.2.2)

/-- `Command.handle` from `make_aws_manifest_files.py`: read `last_pk`,
compute and cache the total record count when the cached value reads as
zero (`int(hget or 0)` followed by `if not`), read the iteration counter,
run the loop.  The count query uses the same `WHERE` filter as the page
query, so over the abstract `db` it returns `db.length`. -/
def handle (db : List Nat) (opts : Opts) (redis : Checkpoint) (fuel : Nat) :
    List Ev × Checkpoint × Bool :=
  let last_pk := redis.last_pk
  let t := redis.total_records.getD 0
  let pre :=
    if t = 0 then
      ([Ev.countQuery db.length, Ev.setTotal db.length],
        { redis with total_records := some db.length })
    else ([], redis)
  let counter := pre.2.next_iteration_counter.getD 0
  let r := handleLoop db opts fuel last_pk counter pre.2
  (pre.1 ++ r.1, r.2.1, r.2.2)

/-- The pages returned by the SELECT queries of a run, in order (a `batch`
event's page, or the empty page that ends the loop). -/
def fetchedPages (evs : List Ev) : List (List Nat) :=
  evs.filterMap fun e =>
    match e with
    | Ev.batch r _ _ => some r
    | Ev.emptyFetch => some []
    | _ => none

def batchEvents (evs : List Ev) : List (List Nat × S3Object × Checkpoint) :=
  evs.filterMap fun e =>
    match e with
    | Ev.batch r o a => some (r, o, a)
    | _ => none

def uploadsOf (evs : List Ev) : List S3Object :=
  (batchEvents evs).map (fun x => x.2.1)

def eraseTotal (c : Checkpoint) : Checkpoint :=
  { c with total_records := none }

/-! ### update_opinions_order.py — n-grams and text matching

Texts are modelled as `List Char`; a tokenized opinion is a list of words.
`generate_ngrams` is translated verbatim from lines 100-115. -/

def generate_ngrams {α : Type} (words : List α) : List (List α) :=
  if words.length ≤ 5 then
    words.map (fun x => [x])
  else if words.length < 25 then
    (List.range (words.length - 1)).map (fun i => (words.drop i).take 2)
  else
    (List.range (words.length - 4)).map (fun i => (words.drop i).take 5)

/-- Python `" ".join(word_group)`. -/
def joinSpace : List (List Char) → List Char
  | [] => []
  | [w] => w
  | w :: ws => w ++ ' ' :: joinSpace ws

/-- Index of the first occurrence of `sub` in `s`, as in Python `str.find`
restricted to success (`none` when `sub` does not occur). -/
def findSub (sub : List Char) : List Char → Option Nat
  | [] => if sub.isPrefixOf ([] : List Char) then some 0 else none
  | c :: t =>
    if sub.isPrefixOf (c :: t) then some 0
    else (findSub sub t).map (· + 1)

/-- Python `str.find`: the lowest index where `sub` occurs, or `-1`. -/
def pyFind (sub s : List Char) : Int :=
  match findSub sub s with
  | some i => (i : Int)
  | none => -1

/-- Fuel-driven scanner for Python `str.count` (non-overlapping
occurrences, scanning left to right and skipping the length of `sub` after
each match); the fuel is the length of the remaining text. -/
def countSubGo (sub : List Char) : Nat → List Char → Nat
  | _, [] => 0
  | 0, _ :: _ => 0
  | fuel + 1, c :: t =>
    if sub.isPrefixOf (c :: t) then 1 + countSubGo sub fuel ((c :: t).drop sub.length)
    else countSubGo sub fuel t

/-- Python `str.count`: `s.count("")` is `len(s) + 1`; for a non-empty
pattern, the number of non-overlapping occurrences. -/
def countSub (sub s : List Char) : Nat :=
  if sub = [] then s.length + 1 else countSubGo sub s.length s

/-- The match index computed by the `for word_group in ngrams_to_check`
loop of `match_text` (lines 137-148): initialized to the length of the
reference text, replaced by `columbia_words.find(phrase)` at the first
n-gram whose phrase occurs exactly once, with a `break`. -/
def matchIndexFor (columbia : List Char) : List (List (List Char)) → Int
  | [] => (columbia.length : Int)
  | g :: rest =>
    let phrase := joinSpace g
    if countSub phrase columbia = 1 then pyFind phrase columbia
    else matchIndexFor columbia rest

/-- One opinion row as consumed by `match_text`, abstracted at the word
level: `id`, `type`, and the words extracted from its `html_columbia` by
`re.findall(r"\b\w+\b", soup.text)`. -/
structure OpinionDoc where
  id : Nat
  optype : String
  words : List (List Char)

/-- `match_text` (lines 118-151): compute each opinion's match index
against the reference text, then `sorted(matches, key=lambda x: x[-1])`
(a stable ascending sort on the last component). -/
def match_text (columbia : List Char) (opinions : List OpinionDoc) :
    List (Nat × String × Int) :=
  let ms := opinions.map
    (fun op => (op.id, op.optype, matchIndexFor columbia (generate_ngrams op.words)))
  List.insertionSort (fun a b => a.2.2 ≤ b.2.2) ms

/-- An opinion has a usable n-gram when some generated n-gram's phrase
occurs exactly once in the reference text. -/
def hasUniqueNgram (columbia : List Char) (words : List (List Char)) : Prop :=
  ∃ g ∈ generate_ngrams words, countSub (joinSpace g) columbia = 1

/-! ### cl/lib/middleware.py — MaintenanceModeMiddleware -/

structure Settings where
  MAINTENANCE_MODE_ENABLED : Bool
  MAINTENANCE_MODE_ALLOW_STAFF : Bool
deriving DecidableEq, Repr

structure HttpRequest where
  hasUser : Bool
  isStaff : Bool
deriving DecidableEq, Repr

structure HttpResponse where
  template : Option String
  status : Nat
  neverCache : Bool
deriving DecidableEq, Repr

/-- `django.shortcuts.render`: a fresh response for the given template and
status, with no cache headers set yet. -/
def renderTemplate (template : String) (status : Nat) : HttpResponse :=
  { template := some template, status := status, neverCache := false }

def add_never_cache_headers (r : HttpResponse) : HttpResponse :=
  { r with neverCache := true }

/-- `MaintenanceModeMiddleware.__init__`: raises `MiddlewareNotUsed` (the
`Except.error` case, upon which the framework removes the middleware from
the chain so it never intercepts a request) when maintenance mode is
disabled. -/
def middleware_init (s : Settings) : Except Unit Unit :=
  if !s.MAINTENANCE_MODE_ENABLED then Except.error () else Except.ok ()

/-- `MaintenanceModeMiddleware.__call__`: always obtains the downstream
response; returns it unchanged for a staff user when
`MAINTENANCE_MODE_ALLOW_STAFF` is set, and otherwise returns the rendered
maintenance page with status 503 and never-cache headers. -/
def middleware_call (s : Settings) (get_response : HttpRequest → HttpResponse)
    (req : HttpRequest) : HttpResponse :=
  let response := get_response req
  if req.hasUser && (s.MAINTENANCE_MODE_ALLOW_STAFF && req.isStaff) then
    response
  else
    add_never_cache_headers (renderTemplate "maintenance.html" 503)

/-! ## Helper lemmas -/

lemma mem_of_getLast?_eq {α : Type} {l : List α} {a : α}
    (h : l.getLast? = some a) : a ∈ l := by
  cases l with
  | nil => simp at h
  | cons x xs =>
    have hne : x :: xs ≠ [] := by simp
    rw [List.getLast?_eq_getLast _ hne] at h
    have := Option.some.inj h
    rw [← this]
    exact List.getLast_mem hne

lemma sorted_le_getLast {l : List Nat} (hs : l.Sorted (· ≤ ·)) {x m : Nat}
    (hx : x ∈ l) (hm : l.getLast? = some m) : x ≤ m := by
  induction l with
  | nil => cases hx
  | cons a t ih =>
    rcases List.sorted_cons.mp hs with ⟨ha, ht⟩
    cases t with
    | nil =>
      simp at hm hx
      omega
    | cons b u =>
      rw [List.getLast?_cons_cons] at hm
      rcases List.mem_cons.mp hx with hxa | hxt
      · subst hxa
        exact ha m (mem_of_getLast?_eq hm)
      · exact ih ht hxt hm

lemma batchedGo_nil {α : Type} (n fuel : Nat) :
    batchedGo (α := α) n fuel [] = [] := by
  cases fuel <;> rfl

lemma batchedGo_congr {α : Type} (n : Nat) (hn : 1 ≤ n) :
    ∀ (fuel₁ fuel₂ : Nat) (l : List α), l.length ≤ fuel₁ → l.length ≤ fuel₂ →
      batchedGo n fuel₁ l = batchedGo n fuel₂ l := by
  intro fuel₁
  induction fuel₁ with
  | zero =>
    intro fuel₂ l h1 _
    have hl : l = [] := List.eq_nil_of_length_eq_zero (Nat.le_zero.mp h1)
    subst hl
    simp [batchedGo_nil]
  | succ f ih =>
    intro fuel₂ l h1 h2
    cases l with
    | nil => simp [batchedGo_nil]
    | cons x xs =>
      cases fuel₂ with
      | zero => simp at h2
      | succ f₂ =>
        show ((x :: xs).take n) :: batchedGo n f ((x :: xs).drop n)
            = ((x :: xs).take n) :: batchedGo n f₂ ((x :: xs).drop n)
        congr 1
        apply ih
        · rw [List.length_drop]
          simp at h1 ⊢
          omega
        · rw [List.length_drop]
          simp at h2 ⊢
          omega

lemma batched_nil {α : Type} (n : Nat) : batched n ([] : List α) = [] := by
  cases n <;> rfl

lemma batched_cons {α : Type} {n : Nat} (hn : 1 ≤ n) (l : List α) (hl : l ≠ []) :
    batched n l = l.take n :: batched n (l.drop n) := by
  have hn0 : ¬ n = 0 := by omega
  cases l with
  | nil => exact absurd rfl hl
  | cons x xs =>
    simp only [batched, if_neg hn0]
    show ((x :: xs).take n) :: batchedGo n xs.length ((x :: xs).drop n) = _
    congr 1
    apply batchedGo_congr n hn
    · rw [List.length_drop]
      simp
      omega
    · exact le_refl _

lemma batched_eq_nil_iff {α : Type} {n : Nat} (hn : 1 ≤ n) (l : List α) :
    batched n l = [] ↔ l = [] := by
  constructor
  · intro h
    by_contra hl
    rw [batched_cons hn l hl] at h
    cases h
  · intro h
    subst h
    exact batched_nil n

lemma batched_flatten_aux {α : Type} {n : Nat} (hn : 1 ≤ n) :
    ∀ (k : Nat) (l : List α), l.length ≤ k → (batched n l).flatten = l := by
  intro k
  induction k with
  | zero =>
    intro l h
    have hl : l = [] := List.eq_nil_of_length_eq_zero (Nat.le_zero.mp h)
    subst hl
    simp [batched_nil]
  | succ k ih =>
    intro l h
    by_cases hl : l = []
    · subst hl
      simp [batched_nil]
    · rw [batched_cons hn l hl]
      have hpos : 0 < l.length := List.length_pos.mpr hl
      have : (l.drop n).length ≤ k := by
        rw [List.length_drop]
        omega
      simp only [List.flatten_cons, ih (l.drop n) this]
      exact List.take_append_drop n l

lemma batched_flatten {α : Type} {n : Nat} (hn : 1 ≤ n) (l : List α) :
    (batched n l).flatten = l :=
  batched_flatten_aux hn l.length l (le_refl _)

lemma batched_length_aux {α : Type} {n : Nat} (hn : 1 ≤ n) :
    ∀ (k : Nat) (l : List α), l.length ≤ k →
      (batched n l).length = (l.length + n - 1) / n := by
  intro k
  induction k with
  | zero =>
    intro l h
    have hl : l = [] := List.eq_nil_of_length_eq_zero (Nat.le_zero.mp h)
    subst hl
    rw [batched_nil]
    simp
    rw [Nat.div_eq_of_lt (by omega)]
  | succ k ih =>
    intro l h
    by_cases hl : l = []
    · subst hl
      rw [batched_nil]
      simp
      rw [Nat.div_eq_of_lt (by omega)]
    · have hpos : 0 < l.length := List.length_pos.mpr hl
      rw [batched_cons hn l hl]
      have hk : (l.drop n).length ≤ k := by
        rw [List.length_drop]
        omega
      rw [List.length_cons, ih (l.drop n) hk, List.length_drop]
      have h1 : l.length + n - 1 = (l.length - 1) + n := by omega
      rw [h1, Nat.add_div_right _ (by omega)]
      by_cases hNn : l.length ≤ n
      · have h2 : l.length - n = 0 := by omega
        rw [h2]
        rw [Nat.div_eq_of_lt (by omega), Nat.div_eq_of_lt (by omega)]
      · have h2 : l.length - n + n - 1 = l.length - 1 := by omega
        rw [h2]

lemma batched_length {α : Type} {n : Nat} (hn : 1 ≤ n) (l : List α) :
    (batched n l).length = (l.length + n - 1) / n :=
  batched_length_aux hn l.length l (le_refl _)

lemma batched_mem_ne_nil_aux {α : Type} {n : Nat} (hn : 1 ≤ n) :
    ∀ (k : Nat) (l : List α), l.length ≤ k → ∀ g ∈ batched n l, g ≠ [] := by
  intro k
  induction k with
  | zero =>
    intro l h g hg
    have hl : l = [] := List.eq_nil_of_length_eq_zero (Nat.le_zero.mp h)
    subst hl
    rw [batched_nil] at hg
    cases hg
  | succ k ih =>
    intro l h g hg
    by_cases hl : l = []
    · subst hl
      rw [batched_nil] at hg
      cases hg
    · rw [batched_cons hn l hl] at hg
      rcases List.mem_cons.mp hg with hg1 | hg2
      · subst hg1
        rw [Ne, List.take_eq_nil_iff]
        push_neg
        exact ⟨by omega, hl⟩
      · have hpos : 0 < l.length := List.length_pos.mpr hl
        exact ih (l.drop n) (by rw [List.length_drop]; omega) g hg2

lemma batched_mem_length_le_aux {α : Type} {n : Nat} (hn : 1 ≤ n) :
    ∀ (k : Nat) (l : List α), l.length ≤ k → ∀ g ∈ batched n l, g.length ≤ n := by
  intro k
  induction k with
  | zero =>
    intro l h g hg
    have hl : l = [] := List.eq_nil_of_length_eq_zero (Nat.le_zero.mp h)
    subst hl
    rw [batched_nil] at hg
    cases hg
  | succ k ih =>
    intro l h g hg
    by_cases hl : l = []
    · subst hl
      rw [batched_nil] at hg
      cases hg
    · rw [batched_cons hn l hl] at hg
      rcases List.mem_cons.mp hg with hg1 | hg2
      · subst hg1
        rw [List.length_take]
        omega
      · have hpos : 0 < l.length := List.length_pos.mpr hl
        exact ih (l.drop n) (by rw [List.length_drop]; omega) g hg2

lemma batched_dropLast_aux {α : Type} {n : Nat} (hn : 1 ≤ n) :
    ∀ (k : Nat) (l : List α), l.length ≤ k →
      ∀ g ∈ (batched n l).dropLast, g.length = n := by
  intro k
  induction k with
  | zero =>
    intro l h g hg
    have hl : l = [] := List.eq_nil_of_length_eq_zero (Nat.le_zero.mp h)
    subst hl
    rw [batched_nil] at hg
    cases hg
  | succ k ih =>
    intro l h g hg
    by_cases hl : l = []
    · subst hl
      rw [batched_nil] at hg
      cases hg
    · rw [batched_cons hn l hl] at hg
      cases hB : batched n (l.drop n) with
      | nil =>
        rw [hB, List.dropLast_single] at hg
        cases hg
      | cons b bs =>
        rw [hB, List.dropLast_cons₂] at hg
        have hdne : l.drop n ≠ [] := by
          intro hd
          rw [hd, batched_nil] at hB
          cases hB
        have hlen : n < l.length := by
          rcases Nat.lt_or_ge n l.length with h' | h'
          · exact h'
          · exact absurd (List.drop_eq_nil_iff.mpr h') hdne
        rcases List.mem_cons.mp hg with hg1 | hg2
        · subst hg1
          rw [List.length_take]
          omega
        · have hpos : 0 < l.length := List.length_pos.mpr hl
          have := ih (l.drop n) (by rw [List.length_drop]; omega)
          rw [hB] at this
          exact this g hg2

lemma batched_getLast_aux {α : Type} {n : Nat} (hn : 1 ≤ n) :
    ∀ (k : Nat) (l : List α), l.length ≤ k → l ≠ [] →
      ∀ g, (batched n l).getLast? = some g → g.getLast? = l.getLast? := by
  intro k
  induction k with
  | zero =>
    intro l h hl
    have : l = [] := List.eq_nil_of_length_eq_zero (Nat.le_zero.mp h)
    exact absurd this hl
  | succ k ih =>
    intro l h hl g hg
    rw [batched_cons hn l hl] at hg
    cases hB : batched n (l.drop n) with
    | nil =>
      rw [hB] at hg
      simp at hg
      have hdnil : l.drop n = [] := (batched_eq_nil_iff hn _).mp hB
      have hlen : l.length ≤ n := List.drop_eq_nil_iff.mp hdnil
      rw [← hg, List.take_of_length_le hlen]
    | cons b bs =>
      rw [hB, List.getLast?_cons_cons] at hg
      have hdne : l.drop n ≠ [] := by
        intro hd
        rw [hd, batched_nil] at hB
        cases hB
      have hpos : 0 < l.length := List.length_pos.mpr hl
      have hrec := ih (l.drop n) (by rw [List.length_drop]; omega) hdne g
        (by rw [hB]; exact hg)
      rw [hrec]
      conv_rhs => rw [← List.take_append_drop n l]
      rw [List.getLast?_append,
        Option.or_of_isSome (List.getLast?_isSome.mpr hdne)]

/-! ## Claim theorems: batching and manifest naming -/

/-- C3: for a batch of `N ≥ 1` identifiers and a sub-batch size `M` with
`1 ≤ M ≤ N`, `itertools.batched` produces exactly `⌈N/M⌉` groups, each of
size `M` except possibly the last (which is non-empty and no larger than
`M`), and the groups concatenate back to the original batch in order. -/
theorem batched_partition {α : Type} (l : List α) (M : Nat)
    (hM : 1 ≤ M) (hMN : M ≤ l.length) (hN : 1 ≤ l.length) :
    (batched M l).length = (l.length + M - 1) / M ∧
    (∀ g ∈ (batched M l).dropLast, g.length = M) ∧
    (∀ g, (batched M l).getLast? = some g → 1 ≤ g.length ∧ g.length ≤ M) ∧
    (batched M l).flatten = l := by
  refine ⟨batched_length hM l, batched_dropLast_aux hM l.length l (le_refl _),
    ?_, batched_flatten hM l⟩
  intro g hg
  have hmem : g ∈ batched M l := mem_of_getLast?_eq hg
  have hne : g ≠ [] := batched_mem_ne_nil_aux hM l.length l (le_refl _) g hmem
  have hle : g.length ≤ M := batched_mem_length_le_aux hM l.length l (le_refl _) g hmem
  exact ⟨List.length_pos.mpr hne, hle⟩

/-- C3 witness at a concrete input: a batch of 5 identifiers with
sub-batch size 2. -/
theorem batched_partition_witness :
    (1 ≤ 2 ∧ 2 ≤ ([10, 20, 30, 40, 50] : List Nat).length ∧
      1 ≤ ([10, 20, 30, 40, 50] : List Nat).length) ∧
    ((batched 2 ([10, 20, 30, 40, 50] : List Nat)).length
        = (([10, 20, 30, 40, 50] : List Nat).length + 2 - 1) / 2 ∧
      (∀ g ∈ (batched 2 ([10, 20, 30, 40, 50] : List Nat)).dropLast, g.length = 2) ∧
      (∀ g, (batched 2 ([10, 20, 30, 40, 50] : List Nat)).getLast? = some g →
        1 ≤ g.length ∧ g.length ≤ 2) ∧
      (batched 2 ([10, 20, 30, 40, 50] : List Nat)).flatten = [10, 20, 30, 40, 50]) :=
  ⟨⟨by decide, by decide, by decide⟩,
    batched_partition [10, 20, 30, 40, 50] 2 (by decide) (by decide) (by decide)⟩

/-- C2: for a sorted sub-batch group, the generated `file_name` is the
single identifier when the group has exactly one element, and
`min_of_group ++ "_" ++ max_of_group` when it has more than one; in
particular the group `[42]` yields `"42"` and the batch
`[42, 43, 44, 45, 46]` with sub-batch size 5 yields the single manifest
row `(bucket, "42_46")`. -/
theorem groupFileName_spec (row : List Nat) (hs : row.Sorted (· ≤ ·)) :
    (∀ x : Nat, row = [x] → groupFileName row = toString x) ∧
    (1 < row.length → ∀ a b : Nat, a ∈ row → b ∈ row →
      (∀ x ∈ row, a ≤ x ∧ x ≤ b) →
      groupFileName row = toString a ++ "_" ++ toString b) ∧
    manifestRows "the-bucket" 5 [42] = [("the-bucket", "42")] ∧
    manifestRows "the-bucket" 5 [42, 43, 44, 45, 46] = [("the-bucket", "42_46")] := by
  refine ⟨?_, ?_, by decide, by decide⟩
  · intro x hx
    subst hx
    rfl
  · intro hlen a b ha hb hbound
    cases row with
    | nil => simp at hlen
    | cons r0 rs =>
      cases rs with
      | nil => simp at hlen
      | cons r1 ru =>
        rcases List.sorted_cons.mp hs with ⟨hr0, hrs⟩
        obtain ⟨y, hy⟩ : ∃ y, (r1 :: ru).getLast? = some y := by
          cases hy0 : (r1 :: ru).getLast? with
          | none => rw [List.getLast?_eq_none_iff] at hy0; cases hy0
          | some y => exact ⟨y, rfl⟩
        have hfull : (r0 :: r1 :: ru).getLast? = some y := by
          rw [List.getLast?_cons_cons]
          exact hy
        have ha_eq : a = r0 := by
          have h1 : a ≤ r0 := (hbound r0 (List.mem_cons_self _ _)).1
          have h2 : r0 ≤ a := by
            rcases List.mem_cons.mp ha with h | h
            · omega
            · exact hr0 a h
          omega
        have hb_eq : b = y := by
          have h1 : y ≤ b := (hbound y (mem_of_getLast?_eq hfull)).2
          have h2 : b ≤ y := sorted_le_getLast hs hb hfull
          omega
        subst ha_eq
        subst hb_eq
        show groupFileName (a :: r1 :: ru) = _
        simp only [groupFileName, hy]

/-- C2 witness: the general min/max clause applied to the sorted group
`[42, 46]`. -/
theorem groupFileName_spec_witness :
    ([42, 46] : List Nat).Sorted (· ≤ ·) ∧
    groupFileName [42, 46] = toString (42 : Nat) ++ "_" ++ toString (46 : Nat) :=
  ⟨by decide,
    ((groupFileName_spec [42, 46] (by decide)).2.1 (by decide) 42 46
      (by decide) (by decide) (by decide))⟩

/-! ## Manifest identifier lemmas -/

lemma groupBoundaryIds_subset (g : List Nat) : ∀ x ∈ groupBoundaryIds g, x ∈ g := by
  intro x hx
  cases g with
  | nil => simp [groupBoundaryIds] at hx
  | cons a t =>
    cases ht : t.getLast? with
    | none =>
      simp only [groupBoundaryIds, ht] at hx
      simp at hx
      subst hx
      exact List.mem_cons_self _ _
    | some y =>
      simp only [groupBoundaryIds, ht] at hx
      rcases List.mem_cons.mp hx with h | h
      · subst h
        exact List.mem_cons_self _ _
      · simp at h
        subst h
        exact List.mem_cons_of_mem _ (mem_of_getLast?_eq ht)

lemma mem_manifestIds_mem {m : Nat} (hm : 1 ≤ m) (rows : List Nat) :
    ∀ id ∈ manifestIds m rows, id ∈ rows := by
  intro id hid
  unfold manifestIds at hid
  rcases List.mem_flatten.mp hid with ⟨l, hl, hidl⟩
  rcases List.mem_map.mp hl with ⟨g, hg, hgl⟩
  rw [← hgl] at hidl
  have hidg := groupBoundaryIds_subset g id hidl
  have hmem : id ∈ (batched m rows).flatten := List.mem_flatten.mpr ⟨g, hg, hidg⟩
  rwa [batched_flatten hm] at hmem

lemma getLast_mem_groupBoundaryIds (g : List Nat) (x : Nat)
    (h : g.getLast? = some x) : x ∈ groupBoundaryIds g := by
  cases g with
  | nil => simp at h
  | cons a t =>
    cases t with
    | nil =>
      simp at h
      subst h
      simp [groupBoundaryIds]
    | cons b u =>
      rw [List.getLast?_cons_cons] at h
      simp [groupBoundaryIds, h]

lemma getLast_mem_manifestIds {m : Nat} (hm : 1 ≤ m) (rows : List Nat) (x : Nat)
    (hx : rows.getLast? = some x) : x ∈ manifestIds m rows := by
  have hrne : rows ≠ [] := by
    intro h
    subst h
    simp at hx
  have hbne : batched m rows ≠ [] := by
    rw [Ne, batched_eq_nil_iff hm]
    exact hrne
  obtain ⟨g, hg⟩ : ∃ g, (batched m rows).getLast? = some g := by
    cases hgl : (batched m rows).getLast? with
    | none => rw [List.getLast?_eq_none_iff] at hgl; exact absurd hgl hbne
    | some g => exact ⟨g, rfl⟩
  have hgl : g.getLast? = rows.getLast? :=
    batched_getLast_aux hm rows.length rows (le_refl _) hrne g hg
  have hxg : x ∈ groupBoundaryIds g :=
    getLast_mem_groupBoundaryIds g x (by rw [hgl, hx])
  exact List.mem_flatten.mpr
    ⟨groupBoundaryIds g,
      List.mem_map.mpr ⟨g, mem_of_getLast?_eq hg, rfl⟩, hxg⟩

/-! ## Page fetch lemmas -/

lemma fetchPage_sorted (db : List Nat) (lp : Option Nat) (limit : Nat) :
    (fetchPage db lp limit).Sorted (· ≤ ·) :=
  List.Pairwise.sublist (List.take_sublist _ _)
    (List.sorted_insertionSort _ _)

lemma fetchPage_nodup {db : List Nat} (hnd : db.Nodup) (lp : Option Nat)
    (limit : Nat) : (fetchPage db lp limit).Nodup := by
  have hrows : (get_custom_query_rows db lp).Nodup := by
    unfold get_custom_query_rows
    split
    · exact List.Nodup.filter _ hnd
    · exact hnd
  have hsort : (List.insertionSort (· ≤ ·) (get_custom_query_rows db lp)).Nodup :=
    ((List.perm_insertionSort _ _).symm).nodup hrows
  exact List.Nodup.sublist (List.take_sublist _ _) hsort

lemma fetchPage_mem_db {db : List Nat} {lp : Option Nat} {limit : Nat} {id : Nat}
    (h : id ∈ fetchPage db lp limit) : id ∈ db := by
  unfold fetchPage at h
  have h1 : id ∈ List.insertionSort (· ≤ ·) (get_custom_query_rows db lp) :=
    (List.take_sublist _ _).subset h
  have h2 : id ∈ get_custom_query_rows db lp :=
    (List.perm_insertionSort _ _).mem_iff.mp h1
  unfold get_custom_query_rows at h2
  revert h2
  split
  · intro h2
    exact (List.mem_filter.mp h2).1
  · intro h2
    exact h2

lemma fetchPage_gt {db : List Nat} {pk : Nat} (hpk : pk ≠ 0) {limit : Nat}
    {id : Nat} (h : id ∈ fetchPage db (some pk) limit) : pk < id := by
  unfold fetchPage at h
  have h1 : id ∈ List.insertionSort (· ≤ ·) (get_custom_query_rows db (some pk)) :=
    (List.take_sublist _ _).subset h
  have h2 : id ∈ get_custom_query_rows db (some pk) :=
    (List.perm_insertionSort _ _).mem_iff.mp h1
  unfold get_custom_query_rows at h2
  rw [if_pos] at h2
  · have := (List.mem_filter.mp h2).2
    simpa using this
  · simp [pkGiven]
    omega

lemma fetchPage_le_getLast {db : List Nat} {lp : Option Nat} {limit : Nat}
    {id m : Nat} (hid : id ∈ fetchPage db lp limit)
    (hm : (fetchPage db lp limit).getLast? = some m) : id ≤ m :=
  sorted_le_getLast (fetchPage_sorted db lp limit) hid hm

lemma fetchPage_pairwise_lt {db : List Nat} (hnd : db.Nodup) (lp : Option Nat)
    (limit : Nat) : List.Pairwise (· < ·) (fetchPage db lp limit) :=
  List.Sorted.lt_of_le (fetchPage_sorted db lp limit) (fetchPage_nodup hnd lp limit)

/-! ## Driver loop lemmas -/

lemma handleLoop_zero (db : List Nat) (opts : Opts) (lp : Option Nat)
    (counter : Nat) (redis : Checkpoint) :
    handleLoop db opts 0 lp counter redis = ([], redis, false) := rfl

lemma handleLoop_succ_none {db : List Nat} {opts : Opts} {lp : Option Nat}
    (fuel counter : Nat) (redis : Checkpoint)
    (hrows : (fetchPage db lp opts.query_batch_size).getLast? = none) :
    handleLoop db opts (fuel + 1) lp counter redis
      = ([Ev.emptyFetch, Ev.del], Checkpoint.deleted, true) := by
  simp only [handleLoop, hrows]

lemma handleLoop_succ_some {db : List Nat} {opts : Opts} {lp : Option Nat}
    {lpv : Nat} (fuel counter : Nat) (redis : Checkpoint)
    (hrows : (fetchPage db lp opts.query_batch_size).getLast? = some lpv) :
    handleLoop db opts (fuel + 1) lp counter redis
      = (Ev.batch (fetchPage db lp opts.query_batch_size)
            (mkManifestObject opts counter (fetchPage db lp opts.query_batch_size))
            (commitCheckpoint redis lpv counter
              (fetchPage db lp opts.query_batch_size).length)
          :: (handleLoop db opts fuel (some lpv) (counter + 1)
              (commitCheckpoint redis lpv counter
                (fetchPage db lp opts.query_batch_size).length)).1,
        (handleLoop db opts fuel (some lpv) (counter + 1)
            (commitCheckpoint redis lpv counter
              (fetchPage db lp opts.query_batch_size).length)).2.1,
        (handleLoop db opts fuel (some lpv) (counter + 1)
            (commitCheckpoint redis lpv counter
              (fetchPage db lp opts.query_batch_size).length)).2.2) := by
  simp only [handleLoop, hrows]

lemma fetchedPages_nil : fetchedPages [] = [] := rfl

lemma fetchedPages_cons_batch (r : List Nat) (o : S3Object) (a : Checkpoint)
    (evs : List Ev) :
    fetchedPages (Ev.batch r o a :: evs) = r :: fetchedPages evs := by
  simp [fetchedPages]

lemma fetchedPages_cons_emptyFetch (evs : List Ev) :
    fetchedPages (Ev.emptyFetch :: evs) = [] :: fetchedPages evs := by
  simp [fetchedPages]

lemma fetchedPages_cons_del (evs : List Ev) :
    fetchedPages (Ev.del :: evs) = fetchedPages evs := by
  simp [fetchedPages]

lemma fetchedPages_cons_countQuery (n : Nat) (evs : List Ev) :
    fetchedPages (Ev.countQuery n :: evs) = fetchedPages evs := by
  simp [fetchedPages]

lemma fetchedPages_cons_setTotal (n : Nat) (evs : List Ev) :
    fetchedPages (Ev.setTotal n :: evs) = fetchedPages evs := by
  simp [fetchedPages]

lemma batchEvents_nil : batchEvents [] = [] := rfl

lemma batchEvents_cons_batch (r : List Nat) (o : S3Object) (a : Checkpoint)
    (evs : List Ev) :
    batchEvents (Ev.batch r o a :: evs) = (r, o, a) :: batchEvents evs := by
  simp [batchEvents]

lemma batchEvents_cons_emptyFetch (evs : List Ev) :
    batchEvents (Ev.emptyFetch :: evs) = batchEvents evs := by
  simp [batchEvents]

lemma batchEvents_cons_del (evs : List Ev) :
    batchEvents (Ev.del :: evs) = batchEvents evs := by
  simp [batchEvents]

lemma batchEvents_cons_countQuery (n : Nat) (evs : List Ev) :
    batchEvents (Ev.countQuery n :: evs) = batchEvents evs := by
  simp [batchEvents]

lemma batchEvents_cons_setTotal (n : Nat) (evs : List Ev) :
    batchEvents (Ev.setTotal n :: evs) = batchEvents evs := by
  simp [batchEvents]

lemma uploadsOf_cons_batch (r : List Nat) (o : S3Object) (a : Checkpoint)
    (evs : List Ev) :
    uploadsOf (Ev.batch r o a :: evs) = o :: uploadsOf evs := by
  simp [uploadsOf, batchEvents_cons_batch]

/-- Trace shape of the loop: a completed run ends with the empty fetch
followed by the checkpoint delete, and everything before them is a batch
event; an aborted run (fuel exhausted) is batch events only. -/
lemma handleLoop_shape (db : List Nat) (opts : Opts) :
    ∀ (fuel : Nat) (lp : Option Nat) (counter : Nat) (redis : Checkpoint),
      ((handleLoop db opts fuel lp counter redis).2.2 = true →
        ∃ pre, (handleLoop db opts fuel lp counter redis).1
            = pre ++ [Ev.emptyFetch, Ev.del] ∧
          ∀ e ∈ pre, ∃ r o a, e = Ev.batch r o a) ∧
      ((handleLoop db opts fuel lp counter redis).2.2 = false →
        ∀ e ∈ (handleLoop db opts fuel lp counter redis).1,
          ∃ r o a, e = Ev.batch r o a) := by
  intro fuel
  induction fuel with
  | zero =>
    intro lp counter redis
    rw [handleLoop_zero]
    constructor
    · intro h
      simp at h
    · intro _ e he
      simp at he
  | succ f ih =>
    intro lp counter redis
    cases hrows : (fetchPage db lp opts.query_batch_size).getLast? with
    | none =>
      rw [handleLoop_succ_none f counter redis hrows]
      constructor
      · intro _
        exact ⟨[], rfl, by simp⟩
      · intro h
        simp at h
    | some lpv =>
      rw [handleLoop_succ_some f counter redis hrows]
      have IH := ih (some lpv) (counter + 1)
        (commitCheckpoint redis lpv counter
          (fetchPage db lp opts.query_batch_size).length)
      constructor
      · intro h
        rcases IH.1 h with ⟨pre, hpre, hall⟩
        refine ⟨Ev.batch (fetchPage db lp opts.query_batch_size)
            (mkManifestObject opts counter (fetchPage db lp opts.query_batch_size))
            (commitCheckpoint redis lpv counter
              (fetchPage db lp opts.query_batch_size).length) :: pre, ?_, ?_⟩
        · show Ev.batch _ _ _ :: _ = _
          rw [hpre]
          rfl
        · intro e he
          rcases List.mem_cons.mp he with he1 | he2
          · exact ⟨_, _, _, he1⟩
          · exact hall e he2
      · intro h e he
        rcases List.mem_cons.mp he with he1 | he2
        · exact ⟨_, _, _, he1⟩
        · exact IH.2 h e he2

/-- Core loop invariant: starting from a committed `last_pk = pk ≥ 1` over a
database of positive, duplicate-free ids, every id ever fetched is greater
than `pk`, the concatenation of all fetched pages is strictly increasing,
and each committed batch stores as `last_pk` exactly the largest identifier
written into that batch's manifest. -/
lemma handleLoop_invariant (db : List Nat) (opts : Opts)
    (hdb : ∀ id ∈ db, 1 ≤ id) (hnd : db.Nodup)
    (hM : 1 ≤ opts.lambda_record_size) :
    ∀ (fuel pk counter : Nat) (redis : Checkpoint), 1 ≤ pk →
      (∀ id ∈ (fetchedPages
          (handleLoop db opts fuel (some pk) counter redis).1).flatten, pk < id) ∧
      List.Pairwise (· < ·) ((fetchedPages
          (handleLoop db opts fuel (some pk) counter redis).1).flatten) ∧
      (∀ rows obj after,
        Ev.batch rows obj after ∈ (handleLoop db opts fuel (some pk) counter redis).1 →
        ∃ m, rows.getLast? = some m ∧ after.last_pk = some m ∧
          m ∈ manifestIds opts.lambda_record_size rows ∧
          ∀ id ∈ manifestIds opts.lambda_record_size rows, id ≤ m) := by
  intro fuel
  induction fuel with
  | zero =>
    intro pk counter redis _
    rw [handleLoop_zero]
    refine ⟨?_, ?_, ?_⟩
    · intro id hid
      simp [fetchedPages_nil] at hid
    · simp [fetchedPages_nil]
    · intro rows obj after h
      simp at h
  | succ f ih =>
    intro pk counter redis hpk
    cases hrows : (fetchPage db (some pk) opts.query_batch_size).getLast? with
    | none =>
      rw [handleLoop_succ_none f counter redis hrows]
      refine ⟨?_, ?_, ?_⟩
      · intro id hid
        simp [fetchedPages, List.filterMap_cons] at hid
      · simp [fetchedPages, List.filterMap_cons]
      · intro rows obj after h
        simp at h
    | some lpv =>
      rw [handleLoop_succ_some f counter redis hrows]
      have hpk0 : pk ≠ 0 := by omega
      have hpage_gt : ∀ id ∈ fetchPage db (some pk) opts.query_batch_size,
          pk < id := fun id h => fetchPage_gt hpk0 h
      have hlpv_mem : lpv ∈ fetchPage db (some pk) opts.query_batch_size :=
        mem_of_getLast?_eq hrows
      have hlpv1 : 1 ≤ lpv := hdb lpv (fetchPage_mem_db hlpv_mem)
      have hpage_le : ∀ id ∈ fetchPage db (some pk) opts.query_batch_size,
          id ≤ lpv := fun id h => fetchPage_le_getLast h hrows
      have hpw : List.Pairwise (· < ·) (fetchPage db (some pk) opts.query_batch_size) :=
        fetchPage_pairwise_lt hnd _ _
      have IH := ih lpv (counter + 1)
        (commitCheckpoint redis lpv counter
          (fetchPage db (some pk) opts.query_batch_size).length) hlpv1
      refine ⟨?_, ?_, ?_⟩
      · intro id hid
        rw [show (Ev.batch (fetchPage db (some pk) opts.query_batch_size)
              (mkManifestObject opts counter (fetchPage db (some pk) opts.query_batch_size))
              (commitCheckpoint redis lpv counter
                (fetchPage db (some pk) opts.query_batch_size).length)
            :: (handleLoop db opts f (some lpv) (counter + 1)
                (commitCheckpoint redis lpv counter
                  (fetchPage db (some pk) opts.query_batch_size).length)).1,
            (handleLoop db opts f (some lpv) (counter + 1)
                (commitCheckpoint redis lpv counter
                  (fetchPage db (some pk) opts.query_batch_size).length)).2.1,
            (handleLoop db opts f (some lpv) (counter + 1)
                (commitCheckpoint redis lpv counter
                  (fetchPage db (some pk) opts.query_batch_size).length)).2.2).1
          = Ev.batch (fetchPage db (some pk) opts.query_batch_size)
              (mkManifestObject opts counter (fetchPage db (some pk) opts.query_batch_size))
              (commitCheckpoint redis lpv counter
                (fetchPage db (some pk) opts.query_batch_size).length)
            :: (handleLoop db opts f (some lpv) (counter + 1)
                (commitCheckpoint redis lpv counter
                  (fetchPage db (some pk) opts.query_batch_size).length)).1 from rfl,
          fetchedPages_cons_batch, List.flatten_cons] at hid
        rcases List.mem_append.mp hid with h1 | h2
        · exact hpage_gt id h1
        · have h3 := IH.1 id h2
          have h4 := hpage_gt lpv hlpv_mem
          omega
      · rw [show (Ev.batch (fetchPage db (some pk) opts.query_batch_size)
              (mkManifestObject opts counter (fetchPage db (some pk) opts.query_batch_size))
              (commitCheckpoint redis lpv counter
                (fetchPage db (some pk) opts.query_batch_size).length)
            :: (handleLoop db opts f (some lpv) (counter + 1)
                (commitCheckpoint redis lpv counter
                  (fetchPage db (some pk) opts.query_batch_size).length)).1,
            (handleLoop db opts f (some lpv) (counter + 1)
                (commitCheckpoint redis lpv counter
                  (fetchPage db (some pk) opts.query_batch_size).length)).2.1,
            (handleLoop db opts f (some lpv) (counter + 1)
                (commitCheckpoint redis lpv counter
                  (fetchPage db (some pk) opts.query_batch_size).length)).2.2).1
          = Ev.batch (fetchPage db (some pk) opts.query_batch_size)
              (mkManifestObject opts counter (fetchPage db (some pk) opts.query_batch_size))
              (commitCheckpoint redis lpv counter
                (fetchPage db (some pk) opts.query_batch_size).length)
            :: (handleLoop db opts f (some lpv) (counter + 1)
                (commitCheckpoint redis lpv counter
                  (fetchPage db (some pk) opts.query_batch_size).length)).1 from rfl,
          fetchedPages_cons_batch, List.flatten_cons, List.pairwise_append]
        refine ⟨hpw, IH.2.1, ?_⟩
        intro a ha b hb
        have h1 := hpage_le a ha
        have h2 := IH.1 b hb
        omega
      · intro rows obj after h
        rcases List.mem_cons.mp h with h1 | h2
        · injection h1 with e1 e2 e3
          subst e1
          subst e3
          refine ⟨lpv, hrows, rfl, getLast_mem_manifestIds hM _ lpv hrows, ?_⟩
          intro id hid
          exact hpage_le id (mem_manifestIds_mem hM _ id hid)
        · exact IH.2.2 rows obj after h2

/-- Each committed batch's upload is the manifest object for its page,
keyed by the iteration counter in effect at that iteration. -/
lemma handleLoop_uploads (db : List Nat) (opts : Opts) :
    ∀ (fuel : Nat) (lp : Option Nat) (counter : Nat) (redis : Checkpoint)
      (i : Nat) (rows : List Nat) (obj : S3Object) (after : Checkpoint),
      (batchEvents (handleLoop db opts fuel lp counter redis).1)[i]?
          = some (rows, obj, after) →
      obj = mkManifestObject opts (counter + i) rows := by
  intro fuel
  induction fuel with
  | zero =>
    intro lp counter redis i rows obj after h
    rw [handleLoop_zero] at h
    simp [batchEvents_nil] at h
  | succ f ih =>
    intro lp counter redis i rows obj after h
    cases hrows : (fetchPage db lp opts.query_batch_size).getLast? with
    | none =>
      rw [handleLoop_succ_none f counter redis hrows] at h
      simp [batchEvents, List.filterMap_cons] at h
    | some lpv =>
      rw [handleLoop_succ_some f counter redis hrows] at h
      rw [show ((Ev.batch (fetchPage db lp opts.query_batch_size)
              (mkManifestObject opts counter (fetchPage db lp opts.query_batch_size))
              (commitCheckpoint redis lpv counter
                (fetchPage db lp opts.query_batch_size).length)
            :: (handleLoop db opts f (some lpv) (counter + 1)
                (commitCheckpoint redis lpv counter
                  (fetchPage db lp opts.query_batch_size).length)).1,
            (handleLoop db opts f (some lpv) (counter + 1)
                (commitCheckpoint redis lpv counter
                  (fetchPage db lp opts.query_batch_size).length)).2.1,
            (handleLoop db opts f (some lpv) (counter + 1)
                (commitCheckpoint redis lpv counter
                  (fetchPage db lp opts.query_batch_size).length)).2.2)).1
          = Ev.batch (fetchPage db lp opts.query_batch_size)
              (mkManifestObject opts counter (fetchPage db lp opts.query_batch_size))
              (commitCheckpoint redis lpv counter
                (fetchPage db lp opts.query_batch_size).length)
            :: (handleLoop db opts f (some lpv) (counter + 1)
                (commitCheckpoint redis lpv counter
                  (fetchPage db lp opts.query_batch_size).length)).1 from rfl,
        batchEvents_cons_batch] at h
      cases i with
      | zero =>
        rw [List.getElem?_cons_zero] at h
        have h' := Option.some.inj h
        have hrowseq : rows = fetchPage db lp opts.query_batch_size :=
          (congrArg Prod.fst h').symm
        have hobjeq : obj = mkManifestObject opts counter
            (fetchPage db lp opts.query_batch_size) :=
          (congrArg (fun x => x.2.1) h').symm
        rw [hobjeq, hrowseq, Nat.add_zero]
      | succ j =>
        rw [List.getElem?_cons_succ] at h
        have hrec := ih (some lpv) (counter + 1)
          (commitCheckpoint redis lpv counter
            (fetchPage db lp opts.query_batch_size).length) j rows obj after h
        have harg : counter + 1 + j = counter + (j + 1) := by omega
        rw [harg] at hrec
        exact hrec

/-- Loop iterations never write `total_records`: every committed
checkpoint carries the value the loop started with. -/
lemma handleLoop_total (db : List Nat) (opts : Opts) :
    ∀ (fuel : Nat) (lp : Option Nat) (counter : Nat) (redis : Checkpoint)
      (rows : List Nat) (obj : S3Object) (after : Checkpoint),
      Ev.batch rows obj after ∈ (handleLoop db opts fuel lp counter redis).1 →
      after.total_records = redis.total_records := by
  intro fuel
  induction fuel with
  | zero =>
    intro lp counter redis rows obj after h
    rw [handleLoop_zero] at h
    simp at h
  | succ f ih =>
    intro lp counter redis rows obj after h
    cases hrows : (fetchPage db lp opts.query_batch_size).getLast? with
    | none =>
      rw [handleLoop_succ_none f counter redis hrows] at h
      simp at h
    | some lpv =>
      rw [handleLoop_succ_some f counter redis hrows] at h
      rcases List.mem_cons.mp h with h1 | h2
      · injection h1 with e1 e2 e3
        subst e3
        rfl
      · have := ih (some lpv) (counter + 1)
          (commitCheckpoint redis lpv counter
            (fetchPage db lp opts.query_batch_size).length) rows obj after h2
        rw [this]
        rfl

/-- The loop never reads `total_records`: two starting checkpoints that
agree on everything else produce the same pages, the same uploads, the
same completion flag, and final checkpoints agreeing on everything but
`total_records`. -/
lemma handleLoop_total_irrelevant (db : List Nat) (opts : Opts) :
    ∀ (fuel : Nat) (lp : Option Nat) (counter : Nat) (r₁ r₂ : Checkpoint),
      eraseTotal r₁ = eraseTotal r₂ →
      uploadsOf (handleLoop db opts fuel lp counter r₁).1
          = uploadsOf (handleLoop db opts fuel lp counter r₂).1 ∧
      fetchedPages (handleLoop db opts fuel lp counter r₁).1
          = fetchedPages (handleLoop db opts fuel lp counter r₂).1 ∧
      eraseTotal (handleLoop db opts fuel lp counter r₁).2.1
          = eraseTotal (handleLoop db opts fuel lp counter r₂).2.1 ∧
      (handleLoop db opts fuel lp counter r₁).2.2
          = (handleLoop db opts fuel lp counter r₂).2.2 := by
  intro fuel
  induction fuel with
  | zero =>
    intro lp counter r₁ r₂ h
    rw [handleLoop_zero, handleLoop_zero]
    exact ⟨rfl, rfl, h, rfl⟩
  | succ f ih =>
    intro lp counter r₁ r₂ h
    cases hrows : (fetchPage db lp opts.query_batch_size).getLast? with
    | none =>
      rw [handleLoop_succ_none f counter r₁ hrows,
        handleLoop_succ_none f counter r₂ hrows]
      exact ⟨rfl, rfl, rfl, rfl⟩
    | some lpv =>
      rw [handleLoop_succ_some f counter r₁ hrows,
        handleLoop_succ_some f counter r₂ hrows]
      have hrp : r₁.records_processed = r₂.records_processed :=
        congrArg (fun c => c.records_processed) h
      have hcommit : eraseTotal (commitCheckpoint r₁ lpv counter
            (fetchPage db lp opts.query_batch_size).length)
          = eraseTotal (commitCheckpoint r₂ lpv counter
            (fetchPage db lp opts.query_batch_size).length) := by
        simp [eraseTotal, commitCheckpoint, hrp]
      have IH := ih (some lpv) (counter + 1) _ _ hcommit
      refine ⟨?_, ?_, IH.2.2.1, IH.2.2.2⟩
      · rw [show ∀ (L : List Ev) (c : Checkpoint) (b : Bool) (r : List Nat)
            (o : S3Object) (a : Checkpoint),
            uploadsOf ((Ev.batch r o a :: L, c, b)).1 = o :: uploadsOf L from
            fun L c b r o a => uploadsOf_cons_batch r o a L,
          show ∀ (L : List Ev) (c : Checkpoint) (b : Bool) (r : List Nat)
            (o : S3Object) (a : Checkpoint),
            uploadsOf ((Ev.batch r o a :: L, c, b)).1 = o :: uploadsOf L from
            fun L c b r o a => uploadsOf_cons_batch r o a L]
        rw [IH.1]
      · rw [show ∀ (L : List Ev) (c : Checkpoint) (b : Bool) (r : List Nat)
            (o : S3Object) (a : Checkpoint),
            fetchedPages ((Ev.batch r o a :: L, c, b)).1 = r :: fetchedPages L from
            fun L c b r o a => fetchedPages_cons_batch r o a L,
          show ∀ (L : List Ev) (c : Checkpoint) (b : Bool) (r : List Nat)
            (o : S3Object) (a : Checkpoint),
            fetchedPages ((Ev.batch r o a :: L, c, b)).1 = r :: fetchedPages L from
            fun L c b r o a => fetchedPages_cons_batch r o a L]
        rw [IH.2.1]

lemma fetchedPages_append (l₁ l₂ : List Ev) :
    fetchedPages (l₁ ++ l₂) = fetchedPages l₁ ++ fetchedPages l₂ :=
  List.filterMap_append _ _ _

lemma batchEvents_append (l₁ l₂ : List Ev) :
    batchEvents (l₁ ++ l₂) = batchEvents l₁ ++ batchEvents l₂ :=
  List.filterMap_append _ _ _

lemma handle_of_total_zero (db : List Nat) (opts : Opts) {redis : Checkpoint}
    (fuel : Nat) (h : redis.total_records.getD 0 = 0) :
    handle db opts redis fuel
      = (Ev.countQuery db.length :: Ev.setTotal db.length ::
          (handleLoop db opts fuel redis.last_pk
            (redis.next_iteration_counter.getD 0)
            { redis with total_records := some db.length }).1,
        (handleLoop db opts fuel redis.last_pk
            (redis.next_iteration_counter.getD 0)
            { redis with total_records := some db.length }).2.1,
        (handleLoop db opts fuel redis.last_pk
            (redis.next_iteration_counter.getD 0)
            { redis with total_records := some db.length }).2.2) := by
  simp [handle, h]

lemma handle_of_total_ne (db : List Nat) (opts : Opts) {redis : Checkpoint}
    (fuel : Nat) (h : ¬ redis.total_records.getD 0 = 0) :
    handle db opts redis fuel
      = handleLoop db opts fuel redis.last_pk
          (redis.next_iteration_counter.getD 0) redis := by
  simp [handle, h]

/-- Every event the loop itself emits is a batch, the empty fetch, or the
delete (never a count query or a `total_records` write). -/
lemma handleLoop_mem_form (db : List Nat) (opts : Opts) :
    ∀ (fuel : Nat) (lp : Option Nat) (counter : Nat) (redis : Checkpoint)
      (e : Ev), e ∈ (handleLoop db opts fuel lp counter redis).1 →
      (∃ r o a, e = Ev.batch r o a) ∨ e = Ev.emptyFetch ∨ e = Ev.del := by
  intro fuel
  induction fuel with
  | zero =>
    intro lp counter redis e he
    rw [handleLoop_zero] at he
    simp at he
  | succ f ih =>
    intro lp counter redis e he
    cases hrows : (fetchPage db lp opts.query_batch_size).getLast? with
    | none =>
      rw [handleLoop_succ_none f counter redis hrows] at he
      rcases List.mem_cons.mp he with h1 | h2
      · exact Or.inr (Or.inl h1)
      · simp at h2
        exact Or.inr (Or.inr h2)
    | some lpv =>
      rw [handleLoop_succ_some f counter redis hrows] at he
      rcases List.mem_cons.mp he with h1 | h2
      · exact Or.inl ⟨_, _, _, h1⟩
      · exact ih (some lpv) (counter + 1) _ e h2

/-! ## Claim theorems: the export driver -/

/-- C5: if the first query of a run returns zero matching records, the
driver deletes the checkpoint (the final checkpoint state reads as absent
for every field) and performs no uploads. -/
theorem empty_first_page_spec (db : List Nat) (opts : Opts) (redis : Checkpoint)
    (fuel : Nat) (hfuel : 1 ≤ fuel)
    (hfirst : fetchPage db redis.last_pk opts.query_batch_size = []) :
    batchEvents (handle db opts redis fuel).1 = [] ∧
    Ev.del ∈ (handle db opts redis fuel).1 ∧
    (handle db opts redis fuel).2.1 = Checkpoint.deleted ∧
    (handle db opts redis fuel).2.2 = true := by
  cases fuel with
  | zero => omega
  | succ f =>
    have hnone : (fetchPage db redis.last_pk opts.query_batch_size).getLast? = none := by
      rw [hfirst]
      rfl
    by_cases ht : redis.total_records.getD 0 = 0
    · rw [handle_of_total_zero db opts (f + 1) ht,
        handleLoop_succ_none f (redis.next_iteration_counter.getD 0) _ hnone]
      refine ⟨?_, ?_, rfl, rfl⟩
      · rw [show (Ev.countQuery db.length :: Ev.setTotal db.length ::
            ([Ev.emptyFetch, Ev.del], Checkpoint.deleted, true).1,
            ([Ev.emptyFetch, Ev.del], Checkpoint.deleted, (true : Bool)).2.1,
            ([Ev.emptyFetch, Ev.del], Checkpoint.deleted, (true : Bool)).2.2).1
          = Ev.countQuery db.length :: Ev.setTotal db.length ::
              [Ev.emptyFetch, Ev.del] from rfl,
          batchEvents_cons_countQuery, batchEvents_cons_setTotal,
          batchEvents_cons_emptyFetch, batchEvents_cons_del, batchEvents_nil]
      · simp
    · rw [handle_of_total_ne db opts (f + 1) ht,
        handleLoop_succ_none f (redis.next_iteration_counter.getD 0) redis hnone]
      refine ⟨?_, ?_, rfl, rfl⟩
      · rw [show ([Ev.emptyFetch, Ev.del], Checkpoint.deleted, (true : Bool)).1
          = [Ev.emptyFetch, Ev.del] from rfl,
          batchEvents_cons_emptyFetch, batchEvents_cons_del, batchEvents_nil]
      · simp

/-- C5 witness: an empty database with no checkpoint. -/
theorem empty_first_page_spec_witness :
    (1 ≤ 1 ∧ fetchPage [] Checkpoint.deleted.last_pk 10 = []) ∧
    (batchEvents (handle [] ⟨"rd", "bucket-a", 10, 10⟩ Checkpoint.deleted 1).1 = [] ∧
      Ev.del ∈ (handle [] ⟨"rd", "bucket-a", 10, 10⟩ Checkpoint.deleted 1).1 ∧
      (handle [] ⟨"rd", "bucket-a", 10, 10⟩ Checkpoint.deleted 1).2.1
          = Checkpoint.deleted ∧
      (handle [] ⟨"rd", "bucket-a", 10, 10⟩ Checkpoint.deleted 1).2.2 = true) :=
  ⟨⟨by decide, by decide⟩,
    empty_first_page_spec [] ⟨"rd", "bucket-a", 10, 10⟩ Checkpoint.deleted 1
      (by decide) (by decide)⟩

/-- C6: the checkpoint delete happens only as the final event of a run,
immediately after a query that returned a zero-row page; a run that aborts
mid-loop (modelled by fuel exhaustion, covering unhandled errors) never
deletes the checkpoint. -/
theorem checkpoint_delete_guard (db : List Nat) (opts : Opts)
    (redis : Checkpoint) (fuel : Nat) :
    (Ev.del ∈ (handle db opts redis fuel).1 →
      ∃ pre, (handle db opts redis fuel).1 = pre ++ [Ev.emptyFetch, Ev.del] ∧
        Ev.del ∉ pre) ∧
    ((handle db opts redis fuel).2.2 = false →
      Ev.del ∉ (handle db opts redis fuel).1) := by
  by_cases ht : redis.total_records.getD 0 = 0
  · rw [handle_of_total_zero db opts fuel ht]
    have hshape := handleLoop_shape db opts fuel redis.last_pk
      (redis.next_iteration_counter.getD 0) { redis with total_records := some db.length }
    constructor
    · intro hdel
      have hdel' : Ev.del ∈ (handleLoop db opts fuel redis.last_pk
          (redis.next_iteration_counter.getD 0)
          { redis with total_records := some db.length }).1 := by
        rcases List.mem_cons.mp hdel with h1 | h2
        · cases h1
        · rcases List.mem_cons.mp h2 with h3 | h4
          · cases h3
          · exact h4
      have hdone : (handleLoop db opts fuel redis.last_pk
          (redis.next_iteration_counter.getD 0)
          { redis with total_records := some db.length }).2.2 = true := by
        cases hd : (handleLoop db opts fuel redis.last_pk
            (redis.next_iteration_counter.getD 0)
            { redis with total_records := some db.length }).2.2 with
        | false =>
          rcases hshape.2 hd Ev.del hdel' with ⟨r, o, a, habs⟩
          cases habs
        | true => rfl
      rcases hshape.1 hdone with ⟨pre, hpre, hall⟩
      refine ⟨Ev.countQuery db.length :: Ev.setTotal db.length :: pre, ?_, ?_⟩
      · show Ev.countQuery db.length :: Ev.setTotal db.length :: _ = _
        rw [hpre]
        rfl
      · intro habs
        rcases List.mem_cons.mp habs with h1 | h2
        · cases h1
        · rcases List.mem_cons.mp h2 with h3 | h4
          · cases h3
          · rcases hall Ev.del h4 with ⟨r, o, a, habs'⟩
            cases habs'
    · intro hdone habs
      have hdel' : Ev.del ∈ (handleLoop db opts fuel redis.last_pk
          (redis.next_iteration_counter.getD 0)
          { redis with total_records := some db.length }).1 := by
        rcases List.mem_cons.mp habs with h1 | h2
        · cases h1
        · rcases List.mem_cons.mp h2 with h3 | h4
          · cases h3
          · exact h4
      rcases hshape.2 hdone Ev.del hdel' with ⟨r, o, a, habs'⟩
      cases habs'
  · rw [handle_of_total_ne db opts fuel ht]
    have hshape := handleLoop_shape db opts fuel redis.last_pk
      (redis.next_iteration_counter.getD 0) redis
    constructor
    · intro hdel
      have hdone : (handleLoop db opts fuel redis.last_pk
          (redis.next_iteration_counter.getD 0) redis).2.2 = true := by
        cases hd : (handleLoop db opts fuel redis.last_pk
            (redis.next_iteration_counter.getD 0) redis).2.2 with
        | false =>
          rcases hshape.2 hd Ev.del hdel with ⟨r, o, a, habs⟩
          cases habs
        | true => rfl
      rcases hshape.1 hdone with ⟨pre, hpre, hall⟩
      refine ⟨pre, hpre, ?_⟩
      intro habs
      rcases hall Ev.del habs with ⟨r, o, a, habs'⟩
      cases habs'
    · intro hdone habs
      rcases hshape.2 hdone Ev.del habs with ⟨r, o, a, habs'⟩
      cases habs'

/-- C6 witness: a run over the database `[7]` completes, and its delete is
the final event right after the empty fetch. -/
theorem checkpoint_delete_guard_witness :
    Ev.del ∈ (handle [7] ⟨"rd", "bucket-a", 10, 10⟩ Checkpoint.deleted 2).1 ∧
    ∃ pre, (handle [7] ⟨"rd", "bucket-a", 10, 10⟩ Checkpoint.deleted 2).1
        = pre ++ [Ev.emptyFetch, Ev.del] ∧ Ev.del ∉ pre := by
  refine ⟨by decide, ?_⟩
  exact (checkpoint_delete_guard [7] ⟨"rd", "bucket-a", 10, 10⟩
    Checkpoint.deleted 2).1 (by decide)

/-- C1: a run that starts with a committed checkpoint (`last_pk = pk0`)
over a primary-key table (positive, duplicate-free ids) only ever fetches
identifiers strictly greater than `pk0`; the concatenation of all pages
fetched by the run is strictly increasing (so nothing is emitted twice
within the run either); and after each committed batch the stored
`last_pk` is exactly the largest identifier written into that batch's
manifest.  Together these give that no identifier committed to an earlier
manifest (all of which are `≤ pk0` by the same per-batch property applied
to the earlier run) is ever re-emitted. -/
theorem export_driver_checkpoint_resume (db : List Nat) (opts : Opts)
    (redis : Checkpoint) (fuel : Nat) (pk0 : Nat)
    (hck : redis.last_pk = some pk0) (hpk : 1 ≤ pk0)
    (hdb : ∀ id ∈ db, 1 ≤ id) (hnd : db.Nodup)
    (hM : 1 ≤ opts.lambda_record_size) :
    (∀ id ∈ (fetchedPages (handle db opts redis fuel).1).flatten, pk0 < id) ∧
    List.Pairwise (· < ·) ((fetchedPages (handle db opts redis fuel).1).flatten) ∧
    (∀ rows obj after,
      Ev.batch rows obj after ∈ (handle db opts redis fuel).1 →
      ∃ m, rows.getLast? = some m ∧ after.last_pk = some m ∧
        m ∈ manifestIds opts.lambda_record_size rows ∧
        ∀ id ∈ manifestIds opts.lambda_record_size rows, id ≤ m) := by
  by_cases ht : redis.total_records.getD 0 = 0
  · rw [handle_of_total_zero db opts fuel ht, hck]
    have hinv := handleLoop_invariant db opts hdb hnd hM fuel pk0
      (redis.next_iteration_counter.getD 0)
      { redis with total_records := some db.length } hpk
    rw [hck] at hinv
    rw [fetchedPages_cons_countQuery, fetchedPages_cons_setTotal]
    refine ⟨hinv.1, hinv.2.1, ?_⟩
    intro rows obj after h
    rcases List.mem_cons.mp h with h1 | h2
    · cases h1
    · rcases List.mem_cons.mp h2 with h3 | h4
      · cases h3
      · exact hinv.2.2 rows obj after h4
  · rw [handle_of_total_ne db opts fuel ht, hck]
    exact handleLoop_invariant db opts hdb hnd hM fuel pk0
      (redis.next_iteration_counter.getD 0) redis hpk

/-- C1 witness: database `[1, 2, 3]`, checkpoint at `last_pk = 1`. -/
theorem export_driver_checkpoint_resume_witness :
    ((⟨some 1, some 3, some 1, some 1⟩ : Checkpoint).last_pk = some 1) ∧
    ((∀ id ∈ (fetchedPages (handle [1, 2, 3] ⟨"rd", "bucket-a", 2, 1⟩
        ⟨some 1, some 3, some 1, some 1⟩ 5).1).flatten, 1 < id) ∧
      List.Pairwise (· < ·) ((fetchedPages (handle [1, 2, 3] ⟨"rd", "bucket-a", 2, 1⟩
        ⟨some 1, some 3, some 1, some 1⟩ 5).1).flatten) ∧
      (∀ rows obj after,
        Ev.batch rows obj after ∈ (handle [1, 2, 3] ⟨"rd", "bucket-a", 2, 1⟩
          ⟨some 1, some 3, some 1, some 1⟩ 5).1 →
        ∃ m, rows.getLast? = some m ∧ after.last_pk = some m ∧
          m ∈ manifestIds 1 rows ∧ ∀ id ∈ manifestIds 1 rows, id ≤ m)) :=
  ⟨rfl,
    export_driver_checkpoint_resume [1, 2, 3] ⟨"rd", "bucket-a", 2, 1⟩
      ⟨some 1, some 3, some 1, some 1⟩ 5 1 rfl (by decide) (by decide)
      (by decide) (by decide)⟩

/-- C4 counterexample: the CSV body written by the driver has no header
row.  For the database `[42]` and bucket `"b"` the single uploaded object
has body `"b,42\r\n"`, which does not begin with `"bucket,file_name"`
(`DictWriter.writeheader` is never called by the source). -/
theorem manifest_header_counterexample :
    uploadsOf (handle [42] ⟨"op", "b", 1000000, 100⟩ Checkpoint.deleted 2).1
      = [{ key := "op_filelist_0.csv", bucket := "b", body := "b,42\r\n" }] ∧
    ("bucket,file_name".data.isPrefixOf "b,42\r\n".data) = false := by
  constructor
  · rfl
  · rfl

/-- C4 (amended): every object uploaded during the iteration with counter
value `c₀ + i` (where `c₀` is the checkpoint's stored counter) has key
`{record_type}_filelist_{c₀+i}.csv` in the operator-supplied bucket, and
its body is the UTF-8 CSV serialization of one row per sub-batch — with
no header row. -/
theorem manifest_upload_format (db : List Nat) (opts : Opts)
    (redis : Checkpoint) (fuel : Nat) (i : Nat) (rows : List Nat)
    (obj : S3Object) (after : Checkpoint)
    (h : (batchEvents (handle db opts redis fuel).1)[i]? = some (rows, obj, after)) :
    obj.key = opts.record_type ++ "_filelist_"
        ++ toString (redis.next_iteration_counter.getD 0 + i) ++ ".csv" ∧
    obj.bucket = opts.bucket_name ∧
    obj.body = csvBody (manifestRows opts.bucket_name opts.lambda_record_size rows) := by
  have hobj : obj = mkManifestObject opts
      (redis.next_iteration_counter.getD 0 + i) rows := by
    by_cases ht : redis.total_records.getD 0 = 0
    · rw [handle_of_total_zero db opts fuel ht] at h
      rw [show (Ev.countQuery db.length :: Ev.setTotal db.length ::
          (handleLoop db opts fuel redis.last_pk (redis.next_iteration_counter.getD 0)
            { redis with total_records := some db.length }).1,
          (handleLoop db opts fuel redis.last_pk (redis.next_iteration_counter.getD 0)
            { redis with total_records := some db.length }).2.1,
          (handleLoop db opts fuel redis.last_pk (redis.next_iteration_counter.getD 0)
            { redis with total_records := some db.length }).2.2).1
        = Ev.countQuery db.length :: Ev.setTotal db.length ::
            (handleLoop db opts fuel redis.last_pk (redis.next_iteration_counter.getD 0)
              { redis with total_records := some db.length }).1 from rfl,
        batchEvents_cons_countQuery, batchEvents_cons_setTotal] at h
      exact handleLoop_uploads db opts fuel redis.last_pk
        (redis.next_iteration_counter.getD 0) _ i rows obj after h
    · rw [handle_of_total_ne db opts fuel ht] at h
      exact handleLoop_uploads db opts fuel redis.last_pk
        (redis.next_iteration_counter.getD 0) redis i rows obj after h
  rw [hobj]
  exact ⟨rfl, rfl, rfl⟩

/-- C4 witness: the run over `[42, 43]` with sub-batch size 1 uploads its
first manifest under counter 0. -/
theorem manifest_upload_format_witness :
    ((batchEvents (handle [42, 43] ⟨"op", "b", 10, 1⟩ Checkpoint.deleted 2).1)[0]?
        = some ([42, 43],
            { key := "op_filelist_0.csv", bucket := "b", body := "b,42\r\nb,43\r\n" },
            ⟨some 43, some 2, some 1, some 2⟩)) ∧
    (({ key := "op_filelist_0.csv", bucket := "b",
          body := "b,42\r\nb,43\r\n" } : S3Object).key
        = "op" ++ "_filelist_" ++ toString ((Checkpoint.deleted.next_iteration_counter).getD 0 + 0) ++ ".csv" ∧
      ({ key := "op_filelist_0.csv", bucket := "b",
          body := "b,42\r\nb,43\r\n" } : S3Object).bucket = "b" ∧
      ({ key := "op_filelist_0.csv", bucket := "b",
          body := "b,42\r\nb,43\r\n" } : S3Object).body
        = csvBody (manifestRows "b" 1 [42, 43])) :=
  ⟨by decide,
    manifest_upload_format [42, 43] ⟨"op", "b", 10, 1⟩ Checkpoint.deleted 2 0
      [42, 43]
      { key := "op_filelist_0.csv", bucket := "b", body := "b,42\r\nb,43\r\n" }
      ⟨some 43, some 2, some 1, some 2⟩ (by decide)⟩

/-- C7 counterexample: a checkpoint with the stored `total_records` value
`"0"` (reachable when a run over an empty table crashes between the
`hset` of the count and the delete).  The claim says the count query runs
only when no value is stored, but `int(hget(...) or 0)` followed by
`if not total_number_of_records` re-runs the count query — and overwrites
the stored value — although a value is stored. -/
theorem total_records_recount_counterexample :
    ((⟨none, some 0, none, none⟩ : Checkpoint).total_records ≠ none) ∧
    Ev.countQuery 1 ∈
      (handle [5] ⟨"op", "b", 10, 10⟩ ⟨none, some 0, none, none⟩ 2).1 ∧
    Ev.setTotal 1 ∈
      (handle [5] ⟨"op", "b", 10, 10⟩ ⟨none, some 0, none, none⟩ 2).1 := by
  refine ⟨by decide, by decide, by decide⟩

/-- C7 (amended): the total-record count query is executed exactly when
the checkpoint's stored `total_records`, read with a default of zero, is
zero (absent or stored as zero); a stored nonzero value is never changed
by the loop's iterations; and two runs differing only in a stored nonzero
`total_records` value upload the same manifests, fetch the same pages,
and end with identical checkpoints apart from `total_records` — the value
is used for progress reporting only. -/
theorem total_records_caching (db : List Nat) (opts : Opts)
    (redis : Checkpoint) (fuel : Nat) :
    ((∃ n, Ev.countQuery n ∈ (handle db opts redis fuel).1) ↔
      redis.total_records.getD 0 = 0) ∧
    (∀ rows obj after,
      Ev.batch rows obj after ∈ (handle db opts redis fuel).1 →
      after.total_records
        = if redis.total_records.getD 0 = 0 then some db.length
          else redis.total_records) ∧
    (∀ (n₁ n₂ : Nat), n₁ ≠ 0 → n₂ ≠ 0 →
      uploadsOf (handle db opts { redis with total_records := some n₁ } fuel).1
          = uploadsOf (handle db opts { redis with total_records := some n₂ } fuel).1 ∧
      fetchedPages (handle db opts { redis with total_records := some n₁ } fuel).1
          = fetchedPages (handle db opts { redis with total_records := some n₂ } fuel).1 ∧
      eraseTotal (handle db opts { redis with total_records := some n₁ } fuel).2.1
          = eraseTotal (handle db opts { redis with total_records := some n₂ } fuel).2.1 ∧
      (handle db opts { redis with total_records := some n₁ } fuel).2.2
          = (handle db opts { redis with total_records := some n₂ } fuel).2.2) := by
  refine ⟨⟨?_, ?_⟩, ?_, ?_⟩
  · rintro ⟨n, hn⟩
    by_contra ht
    rw [handle_of_total_ne db opts fuel ht] at hn
    rcases handleLoop_mem_form db opts fuel redis.last_pk
        (redis.next_iteration_counter.getD 0) redis _ hn with ⟨r, o, a, h⟩ | h | h
    · cases h
    · cases h
    · cases h
  · intro ht
    rw [handle_of_total_zero db opts fuel ht]
    exact ⟨db.length, List.mem_cons_self _ _⟩
  · intro rows obj after h
    by_cases ht : redis.total_records.getD 0 = 0
    · rw [if_pos ht]
      rw [handle_of_total_zero db opts fuel ht] at h
      have h' : Ev.batch rows obj after ∈ (handleLoop db opts fuel redis.last_pk
          (redis.next_iteration_counter.getD 0)
          { redis with total_records := some db.length }).1 := by
        rcases List.mem_cons.mp h with h1 | h2
        · cases h1
        · rcases List.mem_cons.mp h2 with h3 | h4
          · cases h3
          · exact h4
      exact handleLoop_total db opts fuel redis.last_pk
        (redis.next_iteration_counter.getD 0) _ rows obj after h'
    · rw [if_neg ht]
      rw [handle_of_total_ne db opts fuel ht] at h
      exact handleLoop_total db opts fuel redis.last_pk
        (redis.next_iteration_counter.getD 0) redis rows obj after h
  · intro n₁ n₂ h₁ h₂
    have ht₁ : ¬ ({ redis with total_records := some n₁ } : Checkpoint).total_records.getD 0 = 0 := by
      simp
      omega
    have ht₂ : ¬ ({ redis with total_records := some n₂ } : Checkpoint).total_records.getD 0 = 0 := by
      simp
      omega
    rw [handle_of_total_ne db opts fuel ht₁, handle_of_total_ne db opts fuel ht₂]
    exact handleLoop_total_irrelevant db opts fuel redis.last_pk
      (redis.next_iteration_counter.getD 0) _ _ (by simp [eraseTotal])

/-- C7 witness: runs over `[4, 9]` with stored totals 7 and 99 coincide on
everything but the stored total. -/
theorem total_records_caching_witness :
    ((7 : Nat) ≠ 0 ∧ (99 : Nat) ≠ 0) ∧
    (uploadsOf (handle [4, 9] ⟨"op", "b", 10, 10⟩
          { (⟨none, none, none, none⟩ : Checkpoint) with total_records := some 7 } 3).1
        = uploadsOf (handle [4, 9] ⟨"op", "b", 10, 10⟩
          { (⟨none, none, none, none⟩ : Checkpoint) with total_records := some 99 } 3).1 ∧
      fetchedPages (handle [4, 9] ⟨"op", "b", 10, 10⟩
          { (⟨none, none, none, none⟩ : Checkpoint) with total_records := some 7 } 3).1
        = fetchedPages (handle [4, 9] ⟨"op", "b", 10, 10⟩
          { (⟨none, none, none, none⟩ : Checkpoint) with total_records := some 99 } 3).1 ∧
      eraseTotal (handle [4, 9] ⟨"op", "b", 10, 10⟩
          { (⟨none, none, none, none⟩ : Checkpoint) with total_records := some 7 } 3).2.1
        = eraseTotal (handle [4, 9] ⟨"op", "b", 10, 10⟩
          { (⟨none, none, none, none⟩ : Checkpoint) with total_records := some 99 } 3).2.1 ∧
      (handle [4, 9] ⟨"op", "b", 10, 10⟩
          { (⟨none, none, none, none⟩ : Checkpoint) with total_records := some 7 } 3).2.2
        = (handle [4, 9] ⟨"op", "b", 10, 10⟩
          { (⟨none, none, none, none⟩ : Checkpoint) with total_records := some 99 } 3).2.2) :=
  ⟨⟨by decide, by decide⟩,
    (total_records_caching [4, 9] ⟨"op", "b", 10, 10⟩ ⟨none, none, none, none⟩ 3).2.2
      7 99 (by decide) (by decide)⟩

/-! ## n-gram and text matching lemmas -/

lemma findSub_some_lt {sub : List Char} (hsub : sub ≠ []) :
    ∀ {s : List Char} {i : Nat}, findSub sub s = some i → i < s.length := by
  intro s
  induction s with
  | nil =>
    intro i h
    simp only [findSub] at h
    rw [if_neg] at h
    · cases h
    · intro hpre
      cases hsx : sub with
      | nil => exact hsub hsx
      | cons a as =>
        rw [hsx] at hpre
        simp [List.isPrefixOf] at hpre
  | cons c t ih =>
    intro i h
    simp only [findSub] at h
    by_cases hpre : sub.isPrefixOf (c :: t)
    · rw [if_pos hpre] at h
      have : (0 : Nat) = i := Option.some.inj h
      simp [← this]
    · rw [if_neg hpre] at h
      cases hf : findSub sub t with
      | none =>
        rw [hf] at h
        cases h
      | some j =>
        rw [hf] at h
        have hji : j + 1 = i := Option.some.inj h
        have hj := ih hf
        simp
        omega

lemma countSubGo_pos_findSub {sub : List Char} :
    ∀ (fuel : Nat) (s : List Char), 1 ≤ countSubGo sub fuel s →
      ∃ i, findSub sub s = some i := by
  intro fuel
  induction fuel with
  | zero =>
    intro s h
    cases s with
    | nil => simp [countSubGo] at h
    | cons c t => simp [countSubGo] at h
  | succ f ih =>
    intro s h
    cases s with
    | nil => simp [countSubGo] at h
    | cons c t =>
      by_cases hpre : sub.isPrefixOf (c :: t)
      · exact ⟨0, by simp [findSub, hpre]⟩
      · simp only [countSubGo, if_neg hpre] at h
        rcases ih t h with ⟨j, hj⟩
        refine ⟨j + 1, ?_⟩
        simp only [findSub]
        rw [if_neg hpre, hj]
        rfl

lemma countSub_one_find {sub s : List Char} (hsub : sub ≠ [])
    (h : countSub sub s = 1) : ∃ i, findSub sub s = some i ∧ i < s.length := by
  unfold countSub at h
  rw [if_neg hsub] at h
  rcases countSubGo_pos_findSub s.length s h.ge with ⟨i, hi⟩
  exact ⟨i, hi, findSub_some_lt hsub hi⟩

lemma joinSpace_ne_nil {g : List (List Char)} (hg : g ≠ [])
    (hw : ∀ w ∈ g, w ≠ []) : joinSpace g ≠ [] := by
  cases g with
  | nil => exact absurd rfl hg
  | cons w ws =>
    cases ws with
    | nil => exact hw w (List.mem_cons_self _ _)
    | cons w2 ws2 => simp [joinSpace]

lemma generate_ngrams_mem {α : Type} (words : List α) :
    ∀ g ∈ generate_ngrams words, g ≠ [] ∧ ∀ w ∈ g, w ∈ words := by
  intro g hg
  unfold generate_ngrams at hg
  split at hg
  · rcases List.mem_map.mp hg with ⟨x, hx, hgx⟩
    subst hgx
    constructor
    · simp
    · intro w hw
      simp at hw
      subst hw
      exact hx
  · split at hg
    · rcases List.mem_map.mp hg with ⟨i, hi, hgx⟩
      subst hgx
      have hi' : i < words.length - 1 := List.mem_range.mp hi
      constructor
      · apply List.ne_nil_of_length_pos
        rw [List.length_take, List.length_drop]
        omega
      · intro w hw
        exact (List.drop_sublist i words).subset
          ((List.take_sublist 2 _).subset hw)
    · rcases List.mem_map.mp hg with ⟨i, hi, hgx⟩
      subst hgx
      have hi' : i < words.length - 4 := List.mem_range.mp hi
      constructor
      · apply List.ne_nil_of_length_pos
        rw [List.length_take, List.length_drop]
        omega
      · intro w hw
        exact (List.drop_sublist i words).subset
          ((List.take_sublist 5 _).subset hw)

lemma matchIndexFor_eq_len {columbia : List Char} :
    ∀ {L : List (List (List Char))},
      (∀ g ∈ L, countSub (joinSpace g) columbia ≠ 1) →
      matchIndexFor columbia L = (columbia.length : Int) := by
  intro L
  induction L with
  | nil => intro _; rfl
  | cons g rest ih =>
    intro h
    simp only [matchIndexFor]
    rw [if_neg (h g (List.mem_cons_self _ _))]
    exact ih (fun g' hg' => h g' (List.mem_cons_of_mem _ hg'))

lemma matchIndexFor_lt {columbia : List Char} :
    ∀ {L : List (List (List Char))},
      (∀ g ∈ L, joinSpace g ≠ []) →
      (∃ g ∈ L, countSub (joinSpace g) columbia = 1) →
      matchIndexFor columbia L < (columbia.length : Int) := by
  intro L
  induction L with
  | nil =>
    rintro _ ⟨g, hg, _⟩
    cases hg
  | cons g rest ih =>
    intro hne hex
    simp only [matchIndexFor]
    by_cases hc : countSub (joinSpace g) columbia = 1
    · rw [if_pos hc]
      rcases countSub_one_find (hne g (List.mem_cons_self _ _)) hc with ⟨i, hfind, hlt⟩
      unfold pyFind
      rw [hfind]
      show (i : Int) < (columbia.length : Int)
      exact_mod_cast hlt
    · rw [if_neg hc]
      apply ih (fun g' hg' => hne g' (List.mem_cons_of_mem _ hg'))
      rcases hex with ⟨g', hg', hcg'⟩
      rcases List.mem_cons.mp hg' with h1 | h2
      · rw [h1] at hcg'
        exact absurd hcg' hc
      · exact ⟨g', h2, hcg'⟩

instance : IsTotal (Nat × String × Int) (fun a b => a.2.2 ≤ b.2.2) :=
  ⟨fun a b => le_total a.2.2 b.2.2⟩

instance : IsTrans (Nat × String × Int) (fun a b => a.2.2 ≤ b.2.2) :=
  ⟨fun _ _ _ h1 h2 => le_trans h1 h2⟩

/-! ## Claim theorems: n-grams, text matching, middleware -/

/-- C8: the n-gram generator returns one singleton per word when the word
list has at most 5 words, adjacent bigrams (`words[i:i+2]`, giving
`len - 1` of them, the i-th being `[words[i], words[i+1]]`) when it has 6
to 24 words, and adjacent 5-grams (`words[i:i+5]`, giving `len - 4`) when
it has at least 25 words. -/
theorem generate_ngrams_spec {α : Type} (words : List α) :
    (words.length ≤ 5 → generate_ngrams words = words.map (fun x => [x])) ∧
    (6 ≤ words.length → words.length ≤ 24 →
      generate_ngrams words
          = (List.range (words.length - 1)).map (fun i => (words.drop i).take 2) ∧
        (generate_ngrams words).length = words.length - 1 ∧
        (∀ (i : Nat), (h : i + 1 < words.length) →
          (generate_ngrams words)[i]? = some [words[i], words[i + 1]])) ∧
    (25 ≤ words.length →
      generate_ngrams words
          = (List.range (words.length - 4)).map (fun i => (words.drop i).take 5) ∧
        (generate_ngrams words).length = words.length - 4) := by
  refine ⟨?_, ?_, ?_⟩
  · intro h
    unfold generate_ngrams
    rw [if_pos h]
  · intro h1 h2
    have hc1 : ¬ words.length ≤ 5 := by omega
    have hc2 : words.length < 25 := by omega
    have heq : generate_ngrams words
        = (List.range (words.length - 1)).map (fun i => (words.drop i).take 2) := by
      unfold generate_ngrams
      rw [if_neg hc1, if_pos hc2]
    refine ⟨heq, ?_, ?_⟩
    · rw [heq, List.length_map, List.length_range]
    · intro i hib
      have hi : i < words.length := by omega
      have hirange : i < words.length - 1 := by omega
      rw [heq, List.getElem?_map, List.getElem?_range hirange]
      show some ((words.drop i).take 2) = _
      rw [List.drop_eq_getElem_cons hi, List.take_succ_cons,
        List.drop_eq_getElem_cons hib, List.take_succ_cons, List.take_zero]
  · intro h
    have hc1 : ¬ words.length ≤ 5 := by omega
    have hc2 : ¬ words.length < 25 := by omega
    have heq : generate_ngrams words
        = (List.range (words.length - 4)).map (fun i => (words.drop i).take 5) := by
      unfold generate_ngrams
      rw [if_neg hc1, if_neg hc2]
    exact ⟨heq, by rw [heq, List.length_map, List.length_range]⟩

/-- C8 witness: a 6-word list falls in the bigram branch and yields 5
adjacent bigrams. -/
theorem generate_ngrams_spec_witness :
    (6 ≤ ([0, 1, 2, 3, 4, 5] : List Nat).length ∧
      ([0, 1, 2, 3, 4, 5] : List Nat).length ≤ 24) ∧
    (generate_ngrams ([0, 1, 2, 3, 4, 5] : List Nat)
        = (List.range (([0, 1, 2, 3, 4, 5] : List Nat).length - 1)).map
            (fun i => (([0, 1, 2, 3, 4, 5] : List Nat).drop i).take 2) ∧
      (generate_ngrams ([0, 1, 2, 3, 4, 5] : List Nat)).length
          = ([0, 1, 2, 3, 4, 5] : List Nat).length - 1 ∧
      (∀ (i : Nat), (h : i + 1 < ([0, 1, 2, 3, 4, 5] : List Nat).length) →
        (generate_ngrams ([0, 1, 2, 3, 4, 5] : List Nat))[i]?
            = some [([0, 1, 2, 3, 4, 5] : List Nat)[i],
                ([0, 1, 2, 3, 4, 5] : List Nat)[i + 1]])) :=
  ⟨⟨by decide, by decide⟩,
    (generate_ngrams_spec ([0, 1, 2, 3, 4, 5] : List Nat)).2.1
      (by decide) (by decide)⟩

/-- C9: in `match_text`, an opinion none of whose n-gram phrases occurs
exactly once in the reference text keeps the fallback match index — the
length of the reference text — while an opinion with a uniquely occurring
phrase gets an index strictly below that length (so every unmatched
opinion sorts after every matched one), and the returned list is sorted by
ascending match index. -/
theorem match_text_spec (columbia : List Char) (opinions : List OpinionDoc)
    (hw : ∀ op ∈ opinions, ∀ w ∈ op.words, w ≠ []) :
    (∀ op ∈ opinions, ¬ hasUniqueNgram columbia op.words →
      matchIndexFor columbia (generate_ngrams op.words) = (columbia.length : Int)) ∧
    (∀ op ∈ opinions, hasUniqueNgram columbia op.words →
      matchIndexFor columbia (generate_ngrams op.words) < (columbia.length : Int)) ∧
    List.Pairwise (fun a b => a.2.2 ≤ b.2.2) (match_text columbia opinions) := by
  refine ⟨?_, ?_, ?_⟩
  · intro op _ hnot
    apply matchIndexFor_eq_len
    intro g hg hc
    exact hnot ⟨g, hg, hc⟩
  · rintro op hop ⟨g, hg, hc⟩
    apply matchIndexFor_lt
    · intro g' hg'
      have hmem := generate_ngrams_mem op.words g' hg'
      exact joinSpace_ne_nil hmem.1 (fun w hw' => hw op hop w (hmem.2 w hw'))
    · exact ⟨g, hg, hc⟩
  · show List.Pairwise _ (List.insertionSort _ _)
    exact List.sorted_insertionSort _ _

/-- C9 witness: reference text `"ab c"`, one opinion whose single word
`"c"` occurs once (match index 3) and one whose word `"z"` never occurs
(fallback index 4 = text length); the output is sorted accordingly. -/
theorem match_text_spec_witness :
    (∀ op ∈ [(⟨1, "010combined", [['c']]⟩ : OpinionDoc),
        ⟨2, "020lead", [['z']]⟩], ∀ w ∈ op.words, w ≠ []) ∧
    ((∀ op ∈ [(⟨1, "010combined", [['c']]⟩ : OpinionDoc),
        ⟨2, "020lead", [['z']]⟩],
      ¬ hasUniqueNgram ['a', 'b', ' ', 'c'] op.words →
      matchIndexFor ['a', 'b', ' ', 'c'] (generate_ngrams op.words)
          = ((['a', 'b', ' ', 'c'] : List Char).length : Int)) ∧
    (∀ op ∈ [(⟨1, "010combined", [['c']]⟩ : OpinionDoc),
        ⟨2, "020lead", [['z']]⟩],
      hasUniqueNgram ['a', 'b', ' ', 'c'] op.words →
      matchIndexFor ['a', 'b', ' ', 'c'] (generate_ngrams op.words)
          < ((['a', 'b', ' ', 'c'] : List Char).length : Int)) ∧
    List.Pairwise (fun a b => a.2.2 ≤ b.2.2)
      (match_text ['a', 'b', ' ', 'c']
        [⟨1, "010combined", [['c']]⟩, ⟨2, "020lead", [['z']]⟩])) :=
  ⟨by decide,
    match_text_spec ['a', 'b', ' ', 'c']
      [⟨1, "010combined", [['c']]⟩, ⟨2, "020lead", [['z']]⟩] (by decide)⟩

/-- C10: with maintenance mode disabled the middleware constructor raises
`MiddlewareNotUsed` (modelled as `Except.error`, upon which the framework
drops the middleware so it never intercepts a request); with it enabled, a
request carrying a staff user while `MAINTENANCE_MODE_ALLOW_STAFF` is set
receives the downstream response unchanged, and every other request
receives the rendered maintenance page with HTTP status 503 and
never-cache headers set. -/
theorem maintenance_middleware_spec (s : Settings)
    (get_response : HttpRequest → HttpResponse) (req : HttpRequest) :
    (s.MAINTENANCE_MODE_ENABLED = false → middleware_init s = Except.error ()) ∧
    (s.MAINTENANCE_MODE_ENABLED = true → middleware_init s = Except.ok ()) ∧
    (req.hasUser = true → s.MAINTENANCE_MODE_ALLOW_STAFF = true →
      req.isStaff = true →
      middleware_call s get_response req = get_response req) ∧
    (¬ (req.hasUser = true ∧ s.MAINTENANCE_MODE_ALLOW_STAFF = true ∧
        req.isStaff = true) →
      middleware_call s get_response req
        = { template := some "maintenance.html", status := 503,
            neverCache := true }) := by
  refine ⟨?_, ?_, ?_, ?_⟩
  · intro h
    simp [middleware_init, h]
  · intro h
    simp [middleware_init, h]
  · intro h1 h2 h3
    simp [middleware_call, h1, h2, h3]
  · intro h
    unfold middleware_call
    rw [if_neg]
    · rfl
    · simp only [Bool.and_eq_true]
      intro hcontra
      exact h ⟨hcontra.1, hcontra.2.1, hcontra.2.2⟩

/-- C10 witness: disabled settings raise at construction; enabled settings
pass a staff request through unchanged and serve 503 to an anonymous
request. -/
theorem maintenance_middleware_spec_witness :
    ((⟨false, true⟩ : Settings).MAINTENANCE_MODE_ENABLED = false ∧
      middleware_init ⟨false, true⟩ = Except.error ()) ∧
    (middleware_call ⟨true, true⟩ (fun _ => ⟨none, 200, false⟩) ⟨true, true⟩
        = ⟨none, 200, false⟩) ∧
    (middleware_call ⟨true, true⟩ (fun _ => ⟨none, 200, false⟩) ⟨true, false⟩
        = { template := some "maintenance.html", status := 503,
            neverCache := true }) :=
  ⟨⟨rfl, (maintenance_middleware_spec ⟨false, true⟩
      (fun _ => ⟨none, 200, false⟩) ⟨true, true⟩).1 rfl⟩,
    (maintenance_middleware_spec ⟨true, true⟩
      (fun _ => ⟨none, 200, false⟩) ⟨true, true⟩).2.2.1 rfl rfl rfl,
    (maintenance_middleware_spec ⟨true, true⟩
      (fun _ => ⟨none, 200, false⟩) ⟨true, false⟩).2.2.2 (by simp)⟩

end CourtListener
